import Mathlib

/-!
# Verification of the recon-extension scan engine

This file gives a shallow embedding of the core scan-orchestration and
scan-execution code of the `recon-extension` browser extension
(`src/lib/scanner-client.ts`, `src/hooks/use-scan-history.ts`,
`src/entrypoints/background.ts`) and proves, or refutes, the frozen claims
about it.

Modelling conventions:
* JavaScript strings are embedded as lists of Unicode code points
  (`Str := List Nat`); the helper `str` converts a Lean string literal.
* Network I/O (the background `checkUrl` probe and the subdomain provider)
  is abstracted as oracle parameters: a probe is a function from a URL to
  `Option (Nat × Str)` (`none` models a thrown/failed `checkUrl`, `some`
  the delivered status and body).  The Fisher-Yates shuffle applied to the
  wordlist is nondeterministic; its effect is absorbed into the order of
  the input list.
* The WHATWG `URL` constructor used by `getRootDomain` is modelled for the
  inputs relevant here: scheme recognition (`https://`, `http://`),
  cutting the authority at `/`, `?`, `#`, stripping a `:port`,
  lower-casing the host, the ends-in-a-number check with IPv4 parsing and
  renormalization to the canonical dotted quad (so `3.4` becomes
  `3.0.0.4` and `example.7` makes the constructor throw), and rejection
  of an empty host.  The modelled parser only accepts hosts over the
  ASCII letter/digit/hyphen/dot/underscore alphabet, on which
  percent-decoding and IDNA are the identity up to lower-casing; on any
  other host (spaces, forbidden code points, non-ASCII) the modelled
  constructor throws, a conservative under-approximation.  Userinfo,
  port validation and punycode (`xn--`) processing are not modelled, and
  the theorems about `getRootDomain` carry hypotheses keeping them
  inside the modelled regime.
* The zustand store of `use-scan-history.ts` is embedded as an explicit
  state record with one transition function per store action; a resolved
  `performScan` promise is the event `scanComplete`.
-/

namespace ReconExt

/-- JavaScript strings as lists of Unicode code points. -/
abbrev Str := List Nat

/-- Embed a Lean string literal as a `Str`. -/
def str (s : String) : Str := s.data.map Char.toNat

/-- One code point of JavaScript `toLowerCase` (ASCII range, which is all
the code under scrutiny relies on). -/
def lowerCP (c : Nat) : Nat := if 65 ≤ c ∧ c ≤ 90 then c + 32 else c

/-- JavaScript `String.prototype.toLowerCase` on ASCII strings. -/
def toLowerStr (s : Str) : Str := s.map lowerCP

/-- One code point of JavaScript `toUpperCase` (ASCII range). -/
def upperCP (c : Nat) : Nat := if 97 ≤ c ∧ c ≤ 122 then c - 32 else c

/-- `s.charAt(0).toUpperCase() + s.slice(1)` — capitalisation of the
severity for display. -/
def capitalize (s : Str) : Str :=
  match s with
  | [] => []
  | c :: rest => upperCP c :: rest

/-- JavaScript `String.prototype.startsWith`. -/
def startsWithStr : Str → Str → Bool
  | [], _ => true
  | _ :: _, [] => false
  | p :: ps, c :: cs => p == c && startsWithStr ps cs

/-- JavaScript `String.prototype.includes`: substring containment. -/
def containsSub (needle : Str) : Str → Bool
  | [] => startsWithStr needle []
  | c :: rest => startsWithStr needle (c :: rest) || containsSub needle rest

/-- Worker for `splitOnCP`: the first piece and the remaining pieces. -/
def splitOnCPAux (sep : Nat) : Str → Str × List Str
  | [] => ([], [])
  | c :: rest =>
    if c = sep then ([], (splitOnCPAux sep rest).1 :: (splitOnCPAux sep rest).2)
    else (c :: (splitOnCPAux sep rest).1, (splitOnCPAux sep rest).2)

/-- JavaScript `String.prototype.split(sep)` for a one-character
separator: always returns at least one (possibly empty) piece. -/
def splitOnCP (sep : Nat) (s : Str) : List Str :=
  (splitOnCPAux sep s).1 :: (splitOnCPAux sep s).2

/-- JavaScript `Array.prototype.join(sep)` for a one-character separator. -/
def joinCP (sep : Nat) : List Str → Str
  | [] => []
  | [s] => s
  | s :: s' :: ss => s ++ sep :: joinCP sep (s' :: ss)

/-! ## `getRootDomain` (src/lib/scanner-client.ts) -/

/-- The `commonSLDs` array of `getRootDomain`. -/
def commonSLDs : List Str :=
  [str "co", str "com", str "org", str "net", str "gov", str "edu", str "io"]

/-- The label-collapsing logic shared by the `try` and `catch` branches of
`getRootDomain`: with more than 2 dot-separated labels keep the last 3 when
the second-level label is a recognised SLD token, otherwise the last 2;
with at most 2 labels return the hostname unchanged. -/
def collapseParts (hostname : Str) : Str :=
  if 2 < (splitOnCP 46 hostname).length then
    if (splitOnCP 46 hostname).getD ((splitOnCP 46 hostname).length - 2) [] ∈ commonSLDs
    then joinCP 46 ((splitOnCP 46 hostname).drop ((splitOnCP 46 hostname).length - 3))
    else joinCP 46 ((splitOnCP 46 hostname).drop ((splitOnCP 46 hostname).length - 2))
  else hostname

/-- `domain.startsWith('http') ? domain : \x7bhttps://$\x7bdomain}` — the string
handed to the `URL` constructor. -/
def toURLString (domain : Str) : Str :=
  if startsWithStr (str "http") domain then domain else str "https://" ++ domain

/-- Code points allowed before the authority is cut: everything except
`/`, `?`, `#`. -/
def urlAuthChar (c : Nat) : Bool := !(c == 47) && !(c == 63) && !(c == 35)

/-- Code points allowed in the host before a `:port` is stripped. -/
def urlHostChar (c : Nat) : Bool := !(c == 58)

/-- The host candidate of `hostFromRest`. -/
def hostCandidate (rest : Str) : Str :=
  (rest.takeWhile urlAuthChar).takeWhile urlHostChar

/-- ASCII decimal digit code point. -/
def isDigitCP (c : Nat) : Bool := 48 ≤ c && c ≤ 57

/-- ASCII hex digit code point. -/
def isHexDigitCP (c : Nat) : Bool :=
  (48 ≤ c && c ≤ 57) || (97 ≤ c && c ≤ 102) || (65 ≤ c && c ≤ 70)

/-- Numeric value of an ASCII digit or hex-digit code point. -/
def digitVal (c : Nat) : Nat :=
  if 48 ≤ c ∧ c ≤ 57 then c - 48
  else if 97 ≤ c ∧ c ≤ 102 then c - 87
  else if 65 ≤ c ∧ c ≤ 70 then c - 55
  else 0

/-- Digit string to number in the given radix (most significant first). -/
def digitsToNat (radix : Nat) (s : Str) : Nat :=
  s.foldl (fun acc c => acc * radix + digitVal c) 0

/-- The "is a number" test of the WHATWG ends-in-a-number checker: a
nonempty all-digit label, or a `0x`/`0X` label whose remainder is a
(possibly empty) string of hex digits. -/
def isNumberLabel (s : Str) : Bool :=
  if startsWithStr (str "0x") s || startsWithStr (str "0X") s then
    (s.drop 2).all isHexDigitCP
  else !s.isEmpty && s.all isDigitCP

/-- Drop a trailing empty dot-separated piece (when there is more than
one piece), as both the ends-in-a-number checker and the IPv4 parser
do. -/
def trimTrailingEmpty (parts : List Str) : List Str :=
  if parts.getLast? = some ([] : Str) ∧ 1 < parts.length then parts.dropLast else parts

/-- WHATWG ends-in-a-number checker on a host string: after dropping a
trailing empty piece, is the last dot-separated label a number? -/
def endsInNumber (host : Str) : Bool :=
  match (trimTrailingEmpty (splitOnCP 46 host)).getLast? with
  | none => false
  | some last => isNumberLabel last

/-- IPv4 number parser (URL Standard): `0x`/`0X` hex (empty rest is 0),
leading-`0` octal, decimal otherwise; `none` is failure. -/
def parseIPv4Number (s : Str) : Option Nat :=
  if s = [] then none
  else if startsWithStr (str "0x") s || startsWithStr (str "0X") s then
    if (s.drop 2).all isHexDigitCP then some (digitsToNat 16 (s.drop 2)) else none
  else if 2 ≤ s.length ∧ startsWithStr (str "0") s then
    if (s.drop 1).all (fun c => 48 ≤ c && c ≤ 55) then some (digitsToNat 8 (s.drop 1))
    else none
  else if s.all isDigitCP then some (digitsToNat 10 s) else none

/-- The numeric dot-separated pieces of an IPv4 host: trailing empty
piece dropped, at most 4 pieces, every piece an IPv4 number. -/
def ipv4Numbers (host : Str) : Option (List Nat) :=
  if 4 < (trimTrailingEmpty (splitOnCP 46 host)).length then none
  else (trimTrailingEmpty (splitOnCP 46 host)).mapM parseIPv4Number

/-- Combine the IPv4 pieces: piece `i` weighs `256 ^ (3 - i)` and the
last piece is added as-is. -/
def ipv4ValueAux : List Nat → Nat → Nat
  | [], _ => 0
  | [last], _ => last
  | n :: rest, i => n * 256 ^ (3 - i) + ipv4ValueAux rest (i + 1)

/-- Decimal digits of a number, most significant first (fuel-driven so
that it reduces definitionally). -/
def natToDecAux : Nat → Nat → Str
  | 0, _ => []
  | fuel + 1, n => if n < 10 then [48 + n] else natToDecAux fuel (n / 10) ++ [48 + n % 10]

/-- Decimal representation of a number. -/
def natToDec (n : Nat) : Str := natToDecAux (n + 1) n

/-- Serialize a 32-bit IPv4 value as the canonical dotted decimal
quad. -/
def serializeIPv4 (ip : Nat) : Str :=
  natToDec (ip / 16777216 % 256) ++ 46 ::
    (natToDec (ip / 65536 % 256) ++ 46 ::
      (natToDec (ip / 256 % 256) ++ 46 :: natToDec (ip % 256)))

/-- IPv4 parser (URL Standard): bounds-check the pieces and renormalize
to the canonical dotted quad; `none` makes the URL constructor throw. -/
def parseIPv4 (host : Str) : Option Str :=
  match ipv4Numbers host with
  | none => none
  | some numbers =>
    match numbers.getLast? with
    | none => none
    | some last =>
      if numbers.dropLast.any (fun n => 255 < n) then none
      else if 256 ^ (5 - numbers.length) ≤ last then none
      else some (serializeIPv4 (ipv4ValueAux numbers 0))

/-- Code points the modelled host parser accepts: ASCII letters, digits,
hyphen, dot, underscore.  On this alphabet percent-decoding and IDNA are
the identity up to lower-casing, so the model matches the WHATWG parser
exactly; on anything else (space, forbidden code points, `%`,
non-ASCII) the modelled constructor throws — a conservative
under-approximation of the real parser. -/
def hostDomainChar (c : Nat) : Bool :=
  (97 ≤ c && c ≤ 122) || (65 ≤ c && c ≤ 90) || (48 ≤ c && c ≤ 57) ||
    c == 45 || c == 46 || c == 95

/-- Host extraction from the part of a URL string following the scheme:
cut the authority at `/`, `?` or `#`, strip a `:port`, reject an empty
host or one outside the modelled alphabet, lower-case, and apply the
ends-in-a-number/IPv4 rule.  Models `new URL(u).hostname` on the inputs
of interest. -/
def hostFromRest (rest : Str) : Option Str :=
  if hostCandidate rest = [] then none
  else if (hostCandidate rest).all hostDomainChar = false then none
  else if endsInNumber (toLowerStr (hostCandidate rest)) then
    parseIPv4 (toLowerStr (hostCandidate rest))
  else some (toLowerStr (hostCandidate rest))

/-- Models `new URL(u).hostname`, with `none` for a `URL` constructor that
throws (unrecognised scheme, empty host, forbidden host code point). -/
def parseURLHostname (u : Str) : Option Str :=
  if startsWithStr (str "https://") u then hostFromRest (u.drop 8)
  else if startsWithStr (str "http://") u then hostFromRest (u.drop 7)
  else none

/-- `getRootDomain` from src/lib/scanner-client.ts: empty input yields
`''`; otherwise parse as a URL and collapse the hostname's labels; when
URL parsing throws, fall back to `domain.split('/')[0]` and collapse
that. -/
def getRootDomain (domain : Str) : Str :=
  if domain = [] then []
  else
    match parseURLHostname (toURLString domain) with
    | some hostname => collapseParts hostname
    | none => collapseParts ((splitOnCP 47 domain).headD [])

/-! ## Recon engine (`runReconChecks`, src/lib/scanner-client.ts) -/

/-- One wordlist entry (`wordlist.endpoints[i]`). -/
structure Check where
  path : Str
  type : Str
  severity : Str
  positive_match : List Str
  false_positive_indicators : List Str
  description : Str
deriving DecidableEq

/-- A recon finding. -/
structure Finding where
  path : Str
  severity : Str
  type : Str
  details : Str
deriving DecidableEq

/-- `check.type === 'directory' ? 'Directory Listing' : 'Sensitive File'`. -/
def findingType (c : Check) : Str :=
  if c.type = str "directory" then str "Directory Listing" else str "Sensitive File"

/-- The dedup key `` `$\x7bcheck.path}:$\x7btype}` ``. -/
def findingKey (c : Check) : Str := c.path ++ str ":" ++ findingType c

/-- The finding pushed for a matching check. -/
def mkFinding (c : Check) : Finding :=
  { path := c.path, severity := capitalize c.severity, type := findingType c,
    details := c.description }

/-- A probe oracle: maps a URL to `none` when `checkUrl` returned `null`
(network failure or a redirect to a different path), or to the delivered
HTTP status and response body. -/
abbrev Probe := Str → Option (Nat × Str)

/-- The per-check decision of `runReconChecks`: a probe response was
delivered, `res.ok` holds (status 200–299), the lower-cased body contains
at least one lower-cased `positive_match` keyword and none of the
`false_positive_indicators` keywords. -/
def findingCondition (probe : Probe) (fullUrl : Str) (c : Check) : Bool :=
  match probe (fullUrl ++ c.path) with
  | none => false
  | some (status, body) =>
    let lowerText := toLowerStr body
    decide (200 ≤ status) && decide (status ≤ 299) &&
      c.positive_match.any (fun k => containsSub (toLowerStr k) lowerText) &&
      !(c.false_positive_indicators.any (fun k => containsSub (toLowerStr k) lowerText))

/-- The loop body of `runReconChecks` threading the `seenFindings` set:
a check whose condition holds contributes a finding unless its
`(path, type)` key was already seen. -/
def reconAux (probe : Probe) (fullUrl : Str) : List Check → List Str → List Finding
  | [], _ => []
  | c :: cs, seen =>
    if findingCondition probe fullUrl c then
      if findingKey c ∈ seen then reconAux probe fullUrl cs seen
      else mkFinding c :: reconAux probe fullUrl cs (findingKey c :: seen)
    else reconAux probe fullUrl cs seen

/-- `runReconChecks(domain, wordlist)`: probe `https://$\x7bdomain}$\x7bpath}` for
every wordlist entry and collect the deduplicated findings.  The
Fisher-Yates shuffle is absorbed into the order of `wordlist`. -/
def runReconChecks (probe : Probe) (domain : Str) (wordlist : List Check) : List Finding :=
  reconAux probe (str "https://" ++ domain) wordlist []

/-- The per-entry outcome used to characterise `runReconChecks`: the
finding a check contributes when its condition holds. -/
def checkOutcome (probe : Probe) (fullUrl : Str) (c : Check) : Option Finding :=
  if findingCondition probe fullUrl c then some (mkFinding c) else none

/-- The `/.env` wordlist entry of the spec's end-to-end scenario. -/
def envCheck : Check :=
  { path := str "/.env", type := str "file", severity := str "critical",
    positive_match := [str "DB_PASSWORD"], false_positive_indicators := [],
    description := str "Exposed env file" }

/-! ## Status derivation and `performScan` (src/lib/scanner-client.ts) -/

/-- One scan result per probed domain. -/
structure ScanResult where
  domain : Str
  status : Str
  ip : Option Str
  findings : List Finding
deriving DecidableEq

/-- The output of one root-domain scan. -/
structure ScanOutput where
  results : List ScanResult
  rawData : Option (List Str)
deriving DecidableEq

/-- Status derivation of `performScan`: `Secure` without findings, else
`Vulnerable` on a Critical, else `Vulnerable` on a High, else
`Potentially Vulnerable` on a Medium, else `Scanned`. -/
def deriveStatus (findings : List Finding) : Str :=
  if findings = [] then str "Secure"
  else if findings.any (fun f => f.severity == str "Critical") then str "Vulnerable"
  else if findings.any (fun f => f.severity == str "High") then str "Vulnerable"
  else if findings.any (fun f => f.severity == str "Medium") then str "Potentially Vulnerable"
  else str "Scanned"

/-- `isExcludedSubdomain`: case-insensitive denylist of uninteresting
subdomain prefixes. -/
def isExcludedSubdomain (d : Str) : Bool :=
  [str "www.", str "webmail.", str "mail.", str "cpanel.", str "autodiscover.",
   str "shop.", str "blog."].any (fun p => startsWithStr p (toLowerStr d))

/-- `SUBDOMAIN_THRESHOLD` of `performScan`. -/
def SUBDOMAIN_THRESHOLD : Nat := 50

/-- The capping step of `performScan`: when the provider reports more
than `SUBDOMAIN_THRESHOLD` names, keep the first `SUBDOMAIN_THRESHOLD`
in provider order (`subdomains.slice(0, SUBDOMAIN_THRESHOLD)`). -/
def capSubdomains (subs : List Str) : List Str :=
  if SUBDOMAIN_THRESHOLD < subs.length then subs.take SUBDOMAIN_THRESHOLD else subs

/-- One iteration of the `subdomains.forEach` loop of `performScan`:
lower-case the name and append it to the insertion-ordered
`domainsToScan` map unless it matches the denylist or is already
present. -/
def addSubdomainStep (acc : List Str) (s : Str) : List Str :=
  if isExcludedSubdomain (toLowerStr s) = false ∧ toLowerStr s ∉ acc then
    acc ++ [toLowerStr s]
  else acc

/-- The `subdomains.forEach` loop of `performScan` over the capped
provider list. -/
def addSubdomains (init : List Str) (subs : List Str) : List Str :=
  (capSubdomains subs).foldl addSubdomainStep init

/-- The per-domain liveness gate of `performScan`:
`checkUrl(https://domain, '/')` returned non-null. -/
def liveCheck (probe : Probe) (d : Str) : Bool :=
  (probe (str "https://" ++ d)).isSome

/-- The scan of one live domain inside `performScan`. -/
def scanDomain (probe : Probe) (wordlist : List Check) (d : Str) : ScanResult :=
  let findings := runReconChecks probe d wordlist
  { domain := d, status := deriveStatus findings, ip := none, findings := findings }

/-- The error message thrown when no candidate domain is live. -/
def noLiveMsg (rootDomain : Str) : Str :=
  str "No live domains found for " ++ rootDomain ++
    str ". The host may be down or blocking requests."

/-- The final step of `performScan`: throw when nothing could be
analysed, otherwise return the results. -/
def finishScan (rootDomain : Str) (results : List ScanResult)
    (rawData : Option (List Str)) : Except Str ScanOutput :=
  if results = [] then .error (noLiveMsg rootDomain)
  else .ok { results := results, rawData := rawData }

/-- `performScan` (src/lib/scanner-client.ts): build the insertion-ordered
candidate set (root domain, then capped/filtered provider subdomains,
then the literal input when distinct), scan every candidate whose
liveness probe returns non-null, and throw when no candidate could be
analysed.  `subResponse` abstracts the `FETCH_SUBDOMAINS` outcome:
`none` models a failed fetch or a payload without `response.domains`. -/
def performScan (probe : Probe) (subResponse : Option (List Str))
    (domain apiKey : Str) (wordlist : List Check) : Except Str ScanOutput :=
  let rootDomain := getRootDomain domain
  let afterSubs :=
    if apiKey ≠ [] then
      match subResponse with
      | some subs => addSubdomains [rootDomain] subs
      | none => [rootDomain]
    else [rootDomain]
  let domainsToScan :=
    if domain ≠ rootDomain ∧ domain ∉ afterSubs then afterSubs ++ [domain] else afterSubs
  let results := domainsToScan.filterMap
    (fun d => if liveCheck probe d then some (scanDomain probe wordlist d) else none)
  finishScan rootDomain results (if apiKey ≠ [] then subResponse else none)

/-! ## Scan queue store (src/hooks/use-scan-history.ts)

The zustand store is embedded as a state record and one transition
function per action.  The wall-clock `scannedAt` timestamp and the
`initialQueueLength` UI counter are omitted; neither influences queue
admission, processing or persistence. -/

/-- One history entry (`scannedAt` timestamp omitted). -/
structure HistoryItem where
  result : List ScanResult
  rootDomain : Str
deriving DecidableEq

/-- The store state of `use-scan-history.ts`. -/
structure QueueState where
  sessionDomains : List Str
  history : List HistoryItem
  scanQueue : List Str
  isProcessingQueue : Bool
  currentlyScanningDomain : Option Str
  ignoredDomains : List Str
deriving DecidableEq

/-- The store's initial state. -/
def initialState : QueueState :=
  { sessionDomains := [], history := [], scanQueue := [], isProcessingQueue := false,
    currentlyScanningDomain := none, ignoredDomains := [] }

/-- `Array.from(new Set([...l, x]))`: append with insertion-order dedup. -/
def insertDedup (x : Str) (l : List Str) : List Str :=
  if x ∈ l then l else l ++ [x]

/-- `addScanToQueue(domain)`: normalise to the root domain and append it
to the queue unless it is already queued, currently scanning, ignored, or
present in history. -/
def addScanToQueue (domain : Str) (s : QueueState) : QueueState :=
  let rootDomain := getRootDomain domain
  if rootDomain = [] then s
  else if rootDomain ∈ s.scanQueue ∨ s.currentlyScanningDomain = some rootDomain
      ∨ rootDomain ∈ s.ignoredDomains
      ∨ s.history.any (fun h => h.rootDomain == rootDomain) then s
  else { s with scanQueue := s.scanQueue ++ [rootDomain] }

/-- `addScanResults(results)`: key the new history item by the root
domain of the first result, replace any prior entry for that root domain,
and record the root domain as scanned in this session. -/
def addScanResults (results : List ScanResult) (s : QueueState) : QueueState :=
  match results with
  | [] => s
  | r0 :: _ =>
    let rootDomain := getRootDomain r0.domain
    if rootDomain = [] then s
    else
      { s with
        history := { result := results, rootDomain := rootDomain } ::
          s.history.filter (fun h => h.rootDomain ≠ rootDomain),
        sessionDomains := insertDedup rootDomain s.sessionDomains }

/-- The synchronous prefix of `processQueue` up to the `performScan`
await: with an empty queue reset the processing flags; otherwise, when
not already processing, mark the queue head as the in-flight domain. -/
def processQueueStart (s : QueueState) : QueueState :=
  if s.scanQueue = [] then
    { s with isProcessingQueue := false, currentlyScanningDomain := none }
  else if s.isProcessingQueue then s
  else { s with isProcessingQueue := true,
                currentlyScanningDomain := some (s.scanQueue.headD []) }

/-- The continuation of `processQueue` once the `performScan` promise for
the run started on `domain` resolves with `out`: the result is discarded
when `domain` is no longer the currently-scanning domain (the guard in
the `try` block and again in the `finally` block); otherwise non-empty
results are persisted via `addScanResults`, empty results only mark the
session, and the `finally` block pops the queue and clears the in-flight
slot. -/
def scanComplete (domain : Str) (out : ScanOutput) (s : QueueState) : QueueState :=
  if s.currentlyScanningDomain ≠ some domain then s
  else
    let s1 :=
      if out.results ≠ [] then addScanResults out.results s
      else { s with sessionDomains := insertDedup domain s.sessionDomains }
    if s1.currentlyScanningDomain = some domain then
      { s1 with isProcessingQueue := false, currentlyScanningDomain := none,
                scanQueue := s1.scanQueue.drop 1 }
    else s1

/-- The continuation of `processQueue` when `performScan` rejects: only
the `finally` block acts, and only when the domain is still current. -/
def scanFail (domain : Str) (s : QueueState) : QueueState :=
  if s.currentlyScanningDomain = some domain then
    { s with isProcessingQueue := false, currentlyScanningDomain := none,
             scanQueue := s.scanQueue.drop 1 }
  else s

/-- `skipCurrentScan()`: when a scan is in flight, drop the queue head and
clear the in-flight slot (the background is told to abort via
`CANCEL_SCAN`). -/
def skipCurrentScan (s : QueueState) : QueueState :=
  match s.currentlyScanningDomain with
  | none => s
  | some _ =>
    { s with isProcessingQueue := false, currentlyScanningDomain := none,
             scanQueue := s.scanQueue.drop 1 }

/-- `deleteHistoryItem(rootDomain)`. -/
def deleteHistoryItem (rootDomain : Str) (s : QueueState) : QueueState :=
  { s with history := s.history.filter (fun h => h.rootDomain ≠ rootDomain) }

/-- `addIgnoredDomain(domain)`. -/
def addIgnoredDomain (domain : Str) (s : QueueState) : QueueState :=
  { s with ignoredDomains := insertDedup domain s.ignoredDomains }

/-- `removeIgnoredDomain(domain)`. -/
def removeIgnoredDomain (domain : Str) (s : QueueState) : QueueState :=
  { s with ignoredDomains := s.ignoredDomains.filter (fun d => d ≠ domain) }

/-- `clearSession()`. -/
def clearSession (s : QueueState) : QueueState :=
  { s with sessionDomains := [] }

/-- The states reachable from the initial store state under the store's
transitions.  A `scanComplete`/`scanFail` event may fire for any domain
and output, over-approximating which `performScan` promises are
pending. -/
inductive Reachable : QueueState → Prop where
  | init : Reachable initialState
  | add (d : Str) {s} : Reachable s → Reachable (addScanToQueue d s)
  | start {s} : Reachable s → Reachable (processQueueStart s)
  | complete (d : Str) (out : ScanOutput) {s} : Reachable s → Reachable (scanComplete d out s)
  | fail (d : Str) {s} : Reachable s → Reachable (scanFail d s)
  | skip {s} : Reachable s → Reachable (skipCurrentScan s)
  | delete (d : Str) {s} : Reachable s → Reachable (deleteHistoryItem d s)
  | ignore (d : Str) {s} : Reachable s → Reachable (addIgnoredDomain d s)
  | unignore (d : Str) {s} : Reachable s → Reachable (removeIgnoredDomain d s)
  | clear {s} : Reachable s → Reachable (clearSession s)

/-! ## Background message handler (src/entrypoints/background.ts) -/

/-- The `activeScans` map: scan id to the `aborted` flag of its
`AbortController`. -/
structure BgState where
  activeScans : List (Str × Bool)
deriving DecidableEq

/-- Map lookup in `activeScans`. -/
def lookupScan : List (Str × Bool) → Str → Option Bool
  | [], _ => none
  | p :: ps, k => if p.1 = k then some p.2 else lookupScan ps k

/-- The messages relevant to scan-session lifecycle. -/
inductive BgMsg where
  | checkUrlMsg (domain url : Str)
  | cancelScan (domain : Str)
  | startScanSession (domain : Str)
deriving DecidableEq

/-- The handler's responses: a `\x7bsuccess: false}` rejection, a fetch
issued with the given signal state, or a plain `\x7bsuccess: true}`. -/
inductive BgResp where
  | failure (error : Str)
  | probeIssued (signalAborted : Bool)
  | ok
deriving DecidableEq

/-- `message.domain` of each message. -/
def msgDomain : BgMsg → Str
  | .checkUrlMsg d _ => d
  | .cancelScan d => d
  | .startScanSession d => d

/-- `handleMessage` (src/entrypoints/background.ts): compute the scan id
from the message's domain, reject any message whose existing controller
is already aborted, then dispatch: `CHECK_URL` lazily creates a fresh
controller and issues the fetch with its signal; `CANCEL_SCAN` aborts and
deletes the controller; `START_SCAN_SESSION` aborts any old controller
and installs a fresh one.  (`''` stands for the falsy null scan id.) -/
def handleMessage (st : BgState) (msg : BgMsg) : BgState × BgResp :=
  let scanId : Str := if msgDomain msg = [] then [] else getRootDomain (msgDomain msg)
  let controller : Option Bool :=
    if scanId = [] then none else lookupScan st.activeScans scanId
  if controller = some true then (st, .failure (str "Scan cancelled"))
  else
    match msg with
    | .checkUrlMsg _ _ =>
      if scanId = [] then (st, .failure (str "No domain specified for CHECK_URL"))
      else
        let scans :=
          if lookupScan st.activeScans scanId = none then st.activeScans ++ [(scanId, false)]
          else st.activeScans
        (⟨scans⟩, .probeIssued ((lookupScan scans scanId).getD false))
    | .cancelScan _ =>
      if scanId ≠ [] ∧ lookupScan st.activeScans scanId ≠ none then
        (⟨st.activeScans.filter (fun p => p.1 ≠ scanId)⟩, .ok)
      else (st, .ok)
    | .startScanSession _ =>
      if scanId ≠ [] then
        (⟨st.activeScans.filter (fun p => p.1 ≠ scanId) ++ [(scanId, false)]⟩, .ok)
      else (st, .ok)

deriving instance DecidableEq for Except

/-! ## Helper lemmas: code points and lower-casing -/

theorem lowerCP_idem (c : Nat) : lowerCP (lowerCP c) = lowerCP c := by
  unfold lowerCP
  by_cases h : 65 ≤ c ∧ c ≤ 90
  · rw [if_pos h, if_neg (by omega : ¬(65 ≤ c + 32 ∧ c + 32 ≤ 90))]
  · rw [if_neg h, if_neg h]

theorem lowerCP_eq_low_iff {b c : Nat} (hb : b < 65) : lowerCP c = b ↔ c = b := by
  unfold lowerCP
  by_cases h : 65 ≤ c ∧ c ≤ 90
  · rw [if_pos h]
    constructor <;> intro e <;> omega
  · rw [if_neg h]

theorem toLowerStr_idem (s : Str) : toLowerStr (toLowerStr s) = toLowerStr s := by
  unfold toLowerStr
  rw [List.map_map]
  exact List.map_congr_left (fun a _ => lowerCP_idem a)

theorem toLowerStr_eq_self {s : Str} (h : ∀ c ∈ s, lowerCP c = c) : toLowerStr s = s := by
  unfold toLowerStr
  induction s with
  | nil => rfl
  | cons c rest ih =>
    simp only [List.map_cons, h c (List.mem_cons_self c rest)]
    rw [ih (fun x hx => h x (List.mem_cons_of_mem c hx))]

theorem mem_toLowerStr {c : Nat} {s : Str} (h : c ∈ toLowerStr s) :
    ∃ c0 ∈ s, lowerCP c0 = c := by
  unfold toLowerStr at h
  exact List.mem_map.mp h

theorem toLowerStr_ne_nil {s : Str} (h : s ≠ []) : toLowerStr s ≠ [] := by
  unfold toLowerStr
  simpa using h

/-! ## Helper lemmas: `splitOnCP` and `joinCP` -/

theorem joinCP_splitOnCP (sep : Nat) (s : Str) : joinCP sep (splitOnCP sep s) = s := by
  induction s with
  | nil => simp [splitOnCP, splitOnCPAux, joinCP]
  | cons c rest ih =>
    simp only [splitOnCP, splitOnCPAux] at ih ⊢
    by_cases hc : c = sep
    · subst hc
      simp [joinCP, ih]
    · simp only [if_neg hc]
      cases has : (splitOnCPAux sep rest).2 with
      | nil =>
        rw [has] at ih
        simp only [joinCP] at ih ⊢
        rw [ih]
      | cons b bs =>
        rw [has] at ih
        simp only [joinCP] at ih ⊢
        rw [List.cons_append, ih]

theorem splitOnCPAux_no_sep {sep : Nat} {x : Str} (h : sep ∉ x) :
    splitOnCPAux sep x = (x, []) := by
  induction x with
  | nil => rfl
  | cons c rest ih =>
    have hc : c ≠ sep := fun e => h (e ▸ List.mem_cons_self c rest)
    have hrest : sep ∉ rest := fun m => h (List.mem_cons_of_mem c m)
    simp [splitOnCPAux, hc, ih hrest]

theorem splitOnCP_eq_single {sep : Nat} {x : Str} (h : sep ∉ x) : splitOnCP sep x = [x] := by
  simp [splitOnCP, splitOnCPAux_no_sep h]

theorem splitOnCPAux_append_cons {sep : Nat} {x t : Str} (h : sep ∉ x) :
    splitOnCPAux sep (x ++ sep :: t) = (x, splitOnCP sep t) := by
  induction x with
  | nil => simp [splitOnCPAux, splitOnCP]
  | cons c x' ih =>
    have hc : c ≠ sep := fun e => h (e ▸ List.mem_cons_self c x')
    have hx' : sep ∉ x' := fun m => h (List.mem_cons_of_mem c m)
    simp [splitOnCPAux, hc, ih hx']

theorem splitOnCP_append_cons {sep : Nat} {x t : Str} (h : sep ∉ x) :
    splitOnCP sep (x ++ sep :: t) = x :: splitOnCP sep t := by
  simp [splitOnCP, splitOnCPAux_append_cons h]

theorem splitOnCP_joinCP {sep : Nat} {l : List Str} (hl : l ≠ [])
    (hx : ∀ x ∈ l, sep ∉ x) : splitOnCP sep (joinCP sep l) = l := by
  induction l with
  | nil => exact absurd rfl hl
  | cons x xs ih =>
    cases xs with
    | nil => simpa [joinCP] using splitOnCP_eq_single (hx x (List.mem_cons_self x []))
    | cons y ys =>
      simp only [joinCP]
      rw [splitOnCP_append_cons (hx x (List.mem_cons_self x (y :: ys)))]
      rw [ih (List.cons_ne_nil y ys) (fun z hz => hx z (List.mem_cons_of_mem x hz))]

theorem splitOnCPAux_no_sep_pieces (sep : Nat) (s : Str) :
    sep ∉ (splitOnCPAux sep s).1 ∧ ∀ x ∈ (splitOnCPAux sep s).2, sep ∉ x := by
  induction s with
  | nil => simp [splitOnCPAux]
  | cons c rest ih =>
    simp only [splitOnCPAux]
    by_cases hc : c = sep
    · simp only [if_pos hc]
      refine ⟨List.not_mem_nil sep, ?_⟩
      intro x hx
      rcases List.mem_cons.mp hx with e | m
      · exact e ▸ ih.1
      · exact ih.2 x m
    · simp only [if_neg hc]
      refine ⟨?_, ih.2⟩
      intro hm
      rcases List.mem_cons.mp hm with e | m
      · exact hc e.symm
      · exact ih.1 m

theorem not_mem_of_mem_splitOnCP {sep : Nat} {x s : Str}
    (h : x ∈ splitOnCP sep s) : sep ∉ x := by
  simp only [splitOnCP] at h
  rcases List.mem_cons.mp h with e | m
  · exact e ▸ (splitOnCPAux_no_sep_pieces sep s).1
  · exact (splitOnCPAux_no_sep_pieces sep s).2 x m

theorem splitOnCPAux_mem_subset (sep : Nat) (s : Str) :
    (∀ c ∈ (splitOnCPAux sep s).1, c ∈ s) ∧
      ∀ x ∈ (splitOnCPAux sep s).2, ∀ c ∈ x, c ∈ s := by
  induction s with
  | nil => simp [splitOnCPAux]
  | cons d rest ih =>
    simp only [splitOnCPAux]
    by_cases hd : d = sep
    · simp only [if_pos hd]
      refine ⟨by simp, ?_⟩
      intro x hx c hc
      rcases List.mem_cons.mp hx with e | m
      · exact List.mem_cons_of_mem d (ih.1 c (e ▸ hc))
      · exact List.mem_cons_of_mem d (ih.2 x m c hc)
    · simp only [if_neg hd]
      refine ⟨?_, fun x hx c hc => List.mem_cons_of_mem d (ih.2 x hx c hc)⟩
      intro c hc
      rcases List.mem_cons.mp hc with e | m
      · exact e ▸ List.mem_cons_self d rest
      · exact List.mem_cons_of_mem d (ih.1 c m)

theorem mem_of_mem_splitOnCP {sep c : Nat} {x s : Str}
    (hx : x ∈ splitOnCP sep s) (hc : c ∈ x) : c ∈ s := by
  simp only [splitOnCP] at hx
  rcases List.mem_cons.mp hx with e | m
  · exact (splitOnCPAux_mem_subset sep s).1 c (e ▸ hc)
  · exact (splitOnCPAux_mem_subset sep s).2 x m c hc

theorem mem_joinCP {sep c : Nat} {l : List Str} (h : c ∈ joinCP sep l) :
    c = sep ∨ ∃ x ∈ l, c ∈ x := by
  induction l with
  | nil => exact absurd h (List.not_mem_nil c)
  | cons x xs ih =>
    cases xs with
    | nil =>
      simp only [joinCP] at h
      exact Or.inr ⟨x, List.mem_cons_self x [], h⟩
    | cons y ys =>
      simp only [joinCP] at h
      rcases List.mem_append.mp h with h1 | h2
      · exact Or.inr ⟨x, List.mem_cons_self x (y :: ys), h1⟩
      · rcases List.mem_cons.mp h2 with e | m
        · exact Or.inl e
        · rcases ih m with e | ⟨z, hz, hcz⟩
          · exact Or.inl e
          · exact Or.inr ⟨z, List.mem_cons_of_mem x hz, hcz⟩

theorem joinCP_ne_nil {sep : Nat} {l : List Str} (h : 2 ≤ l.length) :
    joinCP sep l ≠ [] := by
  match l with
  | [] => simp at h
  | [x] => simp at h
  | x :: y :: ys =>
    simp only [joinCP]
    simp

/-! ## Helper lemmas: `startsWithStr` and `takeWhile` -/

theorem startsWithStr_append (p t : Str) : startsWithStr p (p ++ t) = true := by
  induction p with
  | nil => rfl
  | cons c ps ih => simp [startsWithStr, ih]

theorem mem_of_startsWithStr {p s : Str} {c : Nat}
    (h : startsWithStr p s = true) (hc : c ∈ p) : c ∈ s := by
  induction p generalizing s with
  | nil => exact absurd hc (List.not_mem_nil c)
  | cons a ps ih =>
    cases s with
    | nil => simp [startsWithStr] at h
    | cons b bs =>
      simp only [startsWithStr, Bool.and_eq_true, beq_iff_eq] at h
      rcases List.mem_cons.mp hc with e | m
      · exact (e.trans h.1) ▸ List.mem_cons_self b bs
      · exact List.mem_cons_of_mem b (ih h.2 m)

theorem takeWhile_eq_self {p : Nat → Bool} {l : Str} (h : ∀ c ∈ l, p c = true) :
    l.takeWhile p = l := by
  induction l with
  | nil => rfl
  | cons c rest ih =>
    rw [List.takeWhile_cons, if_pos (h c (List.mem_cons_self c rest))]
    rw [ih (fun x hx => h x (List.mem_cons_of_mem c hx))]

theorem takeWhile_append_cons {p : Nat → Bool} {l1 l2 : Str} {x : Nat}
    (h : ∀ c ∈ l1, p c = true) (hx : p x = false) :
    (l1 ++ x :: l2).takeWhile p = l1 := by
  induction l1 with
  | nil => simp [List.takeWhile_cons, hx]
  | cons c rest ih =>
    rw [List.cons_append, List.takeWhile_cons, if_pos (h c (List.mem_cons_self c rest))]
    rw [ih (fun y hy => h y (List.mem_cons_of_mem c hy))]

/-! ## Helper lemmas: drop, getLast?, decimal digits and IPv4 -/

theorem getLast?_drop_eq {α : Type} {l : List α} {k : Nat} (h : k < l.length) :
    (l.drop k).getLast? = l.getLast? := by
  have hne : l.drop k ≠ [] := by
    intro e
    have hl : (l.drop k).length = 0 := by rw [e]; rfl
    rw [List.length_drop] at hl
    omega
  obtain ⟨a, ha⟩ := Option.isSome_iff_exists.mp (List.getLast?_isSome.mpr hne)
  conv_rhs => rw [← List.take_append_drop k l]
  rw [List.getLast?_append, ha]
  rfl

theorem dropLast_drop_comm {α : Type} (k : Nat) (l : List α) (h : k + 1 ≤ l.length) :
    (l.drop k).dropLast = l.dropLast.drop k := by
  rw [List.dropLast_eq_take, List.dropLast_eq_take, List.length_drop, List.take_drop]
  have hx : k + (l.length - k - 1) = l.length - 1 := by omega
  rw [hx]

theorem natToDecAux_spec : ∀ fuel n, n < fuel →
    natToDecAux fuel n ≠ [] ∧ ∀ c ∈ natToDecAux fuel n, 48 ≤ c ∧ c ≤ 57 := by
  intro fuel
  induction fuel with
  | zero => intro n h; exact absurd h (by omega)
  | succ f ih =>
    intro n h
    simp only [natToDecAux]
    by_cases h10 : n < 10
    · rw [if_pos h10]
      refine ⟨by simp, ?_⟩
      intro c hc
      simp only [List.mem_singleton] at hc
      omega
    · rw [if_neg h10]
      have hdiv : n / 10 < n := Nat.div_lt_self (by omega) (by omega)
      have hrec := ih (n / 10) (by omega)
      refine ⟨by simp, ?_⟩
      intro c hc
      rcases List.mem_append.mp hc with h1 | h2
      · exact hrec.2 c h1
      · simp only [List.mem_singleton] at h2
        have : n % 10 < 10 := Nat.mod_lt _ (by omega)
        omega

theorem natToDec_ne_nil (n : Nat) : natToDec n ≠ [] :=
  (natToDecAux_spec (n + 1) n (by omega)).1

theorem natToDec_digits (n : Nat) : ∀ c ∈ natToDec n, 48 ≤ c ∧ c ≤ 57 :=
  (natToDecAux_spec (n + 1) n (by omega)).2

theorem not_mem_natToDec_of_low {n b : Nat} (hb : b < 48) : b ∉ natToDec n := by
  intro hm
  have := natToDec_digits n b hm
  omega

theorem isNumberLabel_natToDec (n : Nat) : isNumberLabel (natToDec n) = true := by
  have h120 : startsWithStr (str "0x") (natToDec n) = false := by
    cases e : startsWithStr (str "0x") (natToDec n)
    · rfl
    · have hm : (120 : Nat) ∈ natToDec n :=
        mem_of_startsWithStr e (by decide : (120 : Nat) ∈ str "0x")
      have := natToDec_digits n 120 hm
      omega
  have h88 : startsWithStr (str "0X") (natToDec n) = false := by
    cases e : startsWithStr (str "0X") (natToDec n)
    · rfl
    · have hm : (88 : Nat) ∈ natToDec n :=
        mem_of_startsWithStr e (by decide : (88 : Nat) ∈ str "0X")
      have := natToDec_digits n 88 hm
      omega
  unfold isNumberLabel
  rw [h120, h88]
  simp only [Bool.or_false, Bool.false_eq_true, if_false]
  have hemp : (natToDec n).isEmpty = false := by
    cases hD : natToDec n
    · exact absurd hD (natToDec_ne_nil n)
    · rfl
  rw [hemp]
  simp only [Bool.not_false, Bool.true_and]
  rw [List.all_eq_true]
  intro c hc
  have := natToDec_digits n c hc
  unfold isDigitCP
  simp only [Bool.and_eq_true, decide_eq_true_eq]
  omega

theorem splitOnCP_serializeIPv4 (v : Nat) :
    splitOnCP 46 (serializeIPv4 v) =
      [natToDec (v / 16777216 % 256), natToDec (v / 65536 % 256),
        natToDec (v / 256 % 256), natToDec (v % 256)] := by
  unfold serializeIPv4
  rw [splitOnCP_append_cons (not_mem_natToDec_of_low (by omega))]
  rw [splitOnCP_append_cons (not_mem_natToDec_of_low (by omega))]
  rw [splitOnCP_append_cons (not_mem_natToDec_of_low (by omega))]
  rw [splitOnCP_eq_single (not_mem_natToDec_of_low (by omega))]

theorem endsInNumber_serializeIPv4 (v : Nat) :
    endsInNumber (serializeIPv4 v) = true := by
  unfold endsInNumber trimTrailingEmpty
  rw [splitOnCP_serializeIPv4]
  have hlast : [natToDec (v / 16777216 % 256), natToDec (v / 65536 % 256),
      natToDec (v / 256 % 256), natToDec (v % 256)].getLast? = some (natToDec (v % 256)) := by
    simp
  rw [hlast]
  rw [if_neg (by
    intro hc
    exact natToDec_ne_nil (v % 256) (Option.some.inj hc.1))]
  rw [hlast]
  exact isNumberLabel_natToDec (v % 256)

theorem parseIPv4_some_inv {host hst : Str} (h : parseIPv4 host = some hst) :
    ∃ v, hst = serializeIPv4 v := by
  unfold parseIPv4 at h
  split at h
  · exact Option.noConfusion h
  · split at h
    · exact Option.noConfusion h
    · split at h
      · exact Option.noConfusion h
      · split at h
        · exact Option.noConfusion h
        · exact ⟨_, (Option.some.inj h).symm⟩

theorem hostDomainChar_not_bad {c : Nat} (h : hostDomainChar c = true) :
    c ≠ 47 ∧ c ≠ 58 ∧ c ≠ 63 ∧ c ≠ 35 ∧ c ≠ 32 := by
  unfold hostDomainChar at h
  simp only [Bool.or_eq_true, Bool.and_eq_true, decide_eq_true_eq, beq_iff_eq] at h
  omega

theorem hostDomainChar_lowerCP {c : Nat} (h : hostDomainChar c = true) :
    hostDomainChar (lowerCP c) = true := by
  unfold hostDomainChar at h
  simp only [Bool.or_eq_true, Bool.and_eq_true, decide_eq_true_eq, beq_iff_eq] at h
  unfold lowerCP
  by_cases h65 : 65 ≤ c ∧ c ≤ 90
  · rw [if_pos h65]
    unfold hostDomainChar
    simp only [Bool.or_eq_true, Bool.and_eq_true, decide_eq_true_eq, beq_iff_eq]
    omega
  · rw [if_neg h65]
    unfold hostDomainChar
    simp only [Bool.or_eq_true, Bool.and_eq_true, decide_eq_true_eq, beq_iff_eq]
    omega

/-! ## Helper lemmas: `collapseParts` and `getRootDomain` -/

theorem collapseParts_ne_nil {s : Str} (h : s ≠ []) : collapseParts s ≠ [] := by
  unfold collapseParts
  by_cases hlen : 2 < (splitOnCP 46 s).length
  · rw [if_pos hlen]
    by_cases hsld : (splitOnCP 46 s).getD ((splitOnCP 46 s).length - 2) [] ∈ commonSLDs
    · rw [if_pos hsld]
      apply joinCP_ne_nil
      simp only [List.length_drop]
      omega
    · rw [if_neg hsld]
      apply joinCP_ne_nil
      simp only [List.length_drop]
      omega
  · rw [if_neg hlen]
    exact h

theorem mem_collapseParts {c : Nat} {s : Str} (h : c ∈ collapseParts s) :
    c ∈ s ∨ c = 46 := by
  unfold collapseParts at h
  by_cases hlen : 2 < (splitOnCP 46 s).length
  · rw [if_pos hlen] at h
    have key : ∀ k, c ∈ joinCP 46 ((splitOnCP 46 s).drop k) → c ∈ s ∨ c = 46 := by
      intro k hk
      rcases mem_joinCP hk with e | ⟨x, hx, hcx⟩
      · exact Or.inr e
      · exact Or.inl (mem_of_mem_splitOnCP (List.mem_of_mem_drop hx) hcx)
    by_cases hsld : (splitOnCP 46 s).getD ((splitOnCP 46 s).length - 2) [] ∈ commonSLDs
    · rw [if_pos hsld] at h
      exact key _ h
    · rw [if_neg hsld] at h
      exact key _ h
  · rw [if_neg hlen] at h
    exact Or.inl h

theorem collapseParts_idem (s : Str) : collapseParts (collapseParts s) = collapseParts s := by
  by_cases hlen : 2 < (splitOnCP 46 s).length
  · have hdropsplit : ∀ k, k < (splitOnCP 46 s).length →
        splitOnCP 46 (joinCP 46 ((splitOnCP 46 s).drop k)) = (splitOnCP 46 s).drop k := by
      intro k hk
      apply splitOnCP_joinCP
      · intro e
        have : ((splitOnCP 46 s).drop k).length = 0 := by rw [e]; rfl
        simp only [List.length_drop] at this
        omega
      · exact fun x hx => not_mem_of_mem_splitOnCP (List.mem_of_mem_drop hx)
    by_cases hsld : (splitOnCP 46 s).getD ((splitOnCP 46 s).length - 2) [] ∈ commonSLDs
    · have hr : collapseParts s = joinCP 46 ((splitOnCP 46 s).drop ((splitOnCP 46 s).length - 3)) := by
        unfold collapseParts
        rw [if_pos hlen, if_pos hsld]
      rw [hr]
      have hsp : splitOnCP 46 (joinCP 46 ((splitOnCP 46 s).drop ((splitOnCP 46 s).length - 3)))
          = (splitOnCP 46 s).drop ((splitOnCP 46 s).length - 3) :=
        hdropsplit _ (by omega)
      have hdl : ((splitOnCP 46 s).drop ((splitOnCP 46 s).length - 3)).length = 3 := by
        simp only [List.length_drop]
        omega
      have hgd : ((splitOnCP 46 s).drop ((splitOnCP 46 s).length - 3)).getD 1 []
          = (splitOnCP 46 s).getD ((splitOnCP 46 s).length - 2) [] := by
        rw [List.drop_eq_getElem_cons (by omega : (splitOnCP 46 s).length - 3 < (splitOnCP 46 s).length)]
        rw [List.drop_eq_getElem_cons (by omega : (splitOnCP 46 s).length - 3 + 1 < (splitOnCP 46 s).length)]
        rw [List.getD_cons_succ, List.getD_cons_zero]
        rw [List.getD_eq_getElem (splitOnCP 46 s) []
          (by omega : (splitOnCP 46 s).length - 2 < (splitOnCP 46 s).length)]
        congr 1
        omega
      unfold collapseParts
      rw [hsp, hdl, hgd]
      rw [if_pos (by omega : (2:Nat) < 3), if_pos hsld]
      simp
    · have hr : collapseParts s = joinCP 46 ((splitOnCP 46 s).drop ((splitOnCP 46 s).length - 2)) := by
        unfold collapseParts
        rw [if_pos hlen, if_neg hsld]
      rw [hr]
      have hsp : splitOnCP 46 (joinCP 46 ((splitOnCP 46 s).drop ((splitOnCP 46 s).length - 2)))
          = (splitOnCP 46 s).drop ((splitOnCP 46 s).length - 2) :=
        hdropsplit _ (by omega)
      have hdl : ((splitOnCP 46 s).drop ((splitOnCP 46 s).length - 2)).length = 2 := by
        simp only [List.length_drop]
        omega
      unfold collapseParts
      rw [hsp, hdl]
      rw [if_neg (by omega : ¬ (2:Nat) < 2)]
  · have hr : collapseParts s = s := by
      unfold collapseParts
      rw [if_neg hlen]
    rw [hr]
    exact hr

theorem startsWithStr_false_of_not_mem {p s : Str} {c : Nat}
    (hc : c ∈ p) (hs : c ∉ s) : startsWithStr p s = false := by
  cases e : startsWithStr p s
  · rfl
  · exact absurd (mem_of_startsWithStr e hc) hs

/-- A "clean" domain-shaped string — nonempty, lower-case, free of
`/ : ? #` and space, and not ending in a numeric label — is its own
parsed hostname up to label collapsing, whichever route (`URL` parse,
constructor throw, or fallback) `getRootDomain` takes. -/
theorem getRootDomain_clean {r : Str} (hne : r ≠ [])
    (hbad : ∀ c ∈ r, c ≠ 47 ∧ c ≠ 58 ∧ c ≠ 63 ∧ c ≠ 35 ∧ c ≠ 32)
    (hlow : ∀ c ∈ r, lowerCP c = c)
    (hnum : endsInNumber r = false) :
    getRootDomain r = collapseParts r := by
  have h47 : (47 : Nat) ∉ r := fun m => (hbad 47 m).1 rfl
  by_cases hh : startsWithStr (str "http") r = true
  · have hurl : toURLString r = r := by
      unfold toURLString
      rw [if_pos hh]
    have hps : startsWithStr (str "https://") r = false :=
      startsWithStr_false_of_not_mem (by decide : (47 : Nat) ∈ str "https://") h47
    have hp7 : startsWithStr (str "http://") r = false :=
      startsWithStr_false_of_not_mem (by decide : (47 : Nat) ∈ str "http://") h47
    have hparse : parseURLHostname (toURLString r) = none := by
      rw [hurl]
      unfold parseURLHostname
      rw [hps, hp7]
      simp
    simp only [getRootDomain, if_neg hne, hparse]
    rw [splitOnCP_eq_single h47]
    rfl
  · have hurl : toURLString r = str "https://" ++ r := by
      unfold toURLString
      rw [if_neg hh]
    have hdrop : List.drop 8 (str "https://" ++ r) = r := List.drop_left' (by decide)
    have hauth : List.takeWhile urlAuthChar r = r :=
      takeWhile_eq_self (fun c hc => by
        have h := hbad c hc
        simp [urlAuthChar, h.1, h.2.2.1, h.2.2.2.1])
    have hhost : hostCandidate r = r := by
      unfold hostCandidate
      rw [hauth]
      exact takeWhile_eq_self (fun c hc => by
        have h := hbad c hc
        simp [urlHostChar, h.2.1])
    have hlowr : toLowerStr r = r := toLowerStr_eq_self hlow
    by_cases hall : r.all hostDomainChar = false
    · have hparse : parseURLHostname (toURLString r) = none := by
        rw [hurl]
        unfold parseURLHostname
        rw [if_pos (startsWithStr_append (str "https://") r), hdrop]
        unfold hostFromRest
        rw [if_neg (by rw [hhost]; exact hne), if_pos (by rw [hhost]; exact hall)]
      simp only [getRootDomain, if_neg hne, hparse]
      rw [splitOnCP_eq_single h47]
      rfl
    · have hparse : parseURLHostname (toURLString r) = some r := by
        rw [hurl]
        unfold parseURLHostname
        rw [if_pos (startsWithStr_append (str "https://") r), hdrop]
        unfold hostFromRest
        rw [if_neg (by rw [hhost]; exact hne), if_neg (by rw [hhost]; exact hall)]
        rw [if_neg (by rw [hhost, hlowr, hnum]; simp), hhost, hlowr]
      simp only [getRootDomain, if_neg hne, hparse]

/-- A hostname delivered by the modelled `URL` parse is either a
renormalized IPv4 dotted quad or a nonempty, lower-case string over the
domain alphabet whose final label is not numeric. -/
theorem hostFromRest_inv {rest hst : Str} (h : hostFromRest rest = some hst) :
    (∃ v, hst = serializeIPv4 v) ∨
      (hst ≠ [] ∧ (∀ c ∈ hst, hostDomainChar c = true) ∧
        (∀ c ∈ hst, lowerCP c = c) ∧ endsInNumber hst = false) := by
  unfold hostFromRest at h
  by_cases h1 : hostCandidate rest = []
  · rw [if_pos h1] at h
    exact Option.noConfusion h
  · rw [if_neg h1] at h
    by_cases h2 : (hostCandidate rest).all hostDomainChar = false
    · rw [if_pos h2] at h
      exact Option.noConfusion h
    · rw [if_neg h2] at h
      by_cases h3 : endsInNumber (toLowerStr (hostCandidate rest)) = true
      · rw [if_pos h3] at h
        exact Or.inl (parseIPv4_some_inv h)
      · rw [if_neg h3] at h
        have hhst : hst = toLowerStr (hostCandidate rest) := (Option.some.inj h).symm
        have hall : ∀ c ∈ hostCandidate rest, hostDomainChar c = true := by
          intro c hc
          cases e : (hostCandidate rest).all hostDomainChar
          · exact absurd e h2
          · exact List.all_eq_true.mp e c hc
        subst hhst
        refine Or.inr ⟨toLowerStr_ne_nil h1, ?_, ?_, ?_⟩
        · intro c hc
          obtain ⟨c0, hc0, he⟩ := mem_toLowerStr hc
          subst he
          exact hostDomainChar_lowerCP (hall c0 hc0)
        · intro c hc
          obtain ⟨c0, _, he⟩ := mem_toLowerStr hc
          subst he
          exact lowerCP_idem c0
        · cases e : endsInNumber (toLowerStr (hostCandidate rest))
          · rfl
          · exact absurd e h3

/-- `parseURLHostname` success inverts to `hostFromRest` success. -/
theorem parseURLHostname_inv {u hst : Str} (h : parseURLHostname u = some hst) :
    (∃ v, hst = serializeIPv4 v) ∨
      (hst ≠ [] ∧ (∀ c ∈ hst, hostDomainChar c = true) ∧
        (∀ c ∈ hst, lowerCP c = c) ∧ endsInNumber hst = false) := by
  unfold parseURLHostname at h
  by_cases h1 : startsWithStr (str "https://") u = true
  · rw [if_pos h1] at h
    exact hostFromRest_inv h
  · rw [if_neg h1] at h
    by_cases h2 : startsWithStr (str "http://") u = true
    · rw [if_pos h2] at h
      exact hostFromRest_inv h
    · rw [if_neg h2] at h
      exact Option.noConfusion h

/-- Joining a nonempty suffix of the dot-labels keeps the
ends-in-a-number verdict, provided the suffix has at least 2 labels. -/
theorem endsInNumber_joinCP_drop {s : Str} {k : Nat}
    (hk : k + 2 ≤ (splitOnCP 46 s).length) :
    endsInNumber (joinCP 46 ((splitOnCP 46 s).drop k)) = endsInNumber s := by
  have hlen : ((splitOnCP 46 s).drop k).length = (splitOnCP 46 s).length - k := by
    simp [List.length_drop]
  have hne : (splitOnCP 46 s).drop k ≠ [] := by
    intro e
    rw [e] at hlen
    simp at hlen
    omega
  have hsp : splitOnCP 46 (joinCP 46 ((splitOnCP 46 s).drop k)) = (splitOnCP 46 s).drop k :=
    splitOnCP_joinCP hne (fun x hx => not_mem_of_mem_splitOnCP (List.mem_of_mem_drop hx))
  have hglast : ((splitOnCP 46 s).drop k).getLast? = (splitOnCP 46 s).getLast? :=
    getLast?_drop_eq (by omega)
  have hkey : (trimTrailingEmpty ((splitOnCP 46 s).drop k)).getLast?
      = (trimTrailingEmpty (splitOnCP 46 s)).getLast? := by
    unfold trimTrailingEmpty
    by_cases hl : (splitOnCP 46 s).getLast? = some ([] : Str)
    · rw [if_pos ⟨hglast.trans hl, by rw [hlen]; omega⟩, if_pos ⟨hl, by omega⟩]
      rw [dropLast_drop_comm k (splitOnCP 46 s) (by omega)]
      exact getLast?_drop_eq (by rw [List.length_dropLast]; omega)
    · rw [if_neg (fun hc => hl (hglast ▸ hc.1)), if_neg (fun hc => hl hc.1)]
      exact hglast
  unfold endsInNumber
  rw [hsp, hkey]

/-- Collapsing the labels of a host that does not end in a number yields
a host that does not end in a number. -/
theorem endsInNumber_collapseParts {s : Str} (h : endsInNumber s = false) :
    endsInNumber (collapseParts s) = false := by
  unfold collapseParts
  by_cases hlen : 2 < (splitOnCP 46 s).length
  · by_cases hsld : (splitOnCP 46 s).getD ((splitOnCP 46 s).length - 2) [] ∈ commonSLDs
    · rw [if_pos hlen, if_pos hsld, endsInNumber_joinCP_drop (by omega)]
      exact h
    · rw [if_pos hlen, if_neg hsld, endsInNumber_joinCP_drop (by omega)]
      exact h
  · rw [if_neg hlen]
    exact h

/-- **C7** counterexample: `getRootDomain` does not simply keep trailing
labels of the given hostname.  A host whose last dot-label is numeric is
renormalized by the WHATWG `URL` parser to a full dotted quad before the
labels are collapsed — `getRootDomain("3.4")` is `"0.4"` (the hostname
becomes `3.0.0.4`), not `"3.4"` — and a URL whose numeric-final host
fails IPv4 parsing makes the constructor throw, so
`getRootDomain("https://example.7/p")` falls back to splitting the raw
input on `/` and returns `"https:"`. -/
theorem getRootDomain_ipv4_counterexample :
    getRootDomain (str "3.4") = str "0.4" ∧ str "0.4" ≠ str "3.4" ∧
    getRootDomain (str "https://example.7/p") = str "https:" :=
  ⟨by decide, by decide, by decide⟩

/-- **C7** (amended): for every bare hostname over the domain alphabet
(lower-case letters, digits, `-`, `.`, `_`) whose final dot-label is not
numeric and which contains no `xn--` punycode marker — and for every URL
built from it with the `https://` scheme and a path — root-domain
normalisation strips scheme and path, splits the hostname on `.`, and
returns the last 3 labels when there are more than 2 labels and the
second-level label is one of co, com, org, net, gov, edu, io, and the
last 2 labels otherwise. -/
theorem getRootDomain_collapses_labels (h p : Str) (h1 : h ≠ [])
    (h2 : ∀ c ∈ h, c = 45 ∨ c = 46 ∨ c = 95 ∨ (48 ≤ c ∧ c ≤ 57) ∨ (97 ≤ c ∧ c ≤ 122))
    (h3 : endsInNumber h = false)
    (h4 : containsSub (str "xn--") h = false) :
    (getRootDomain h =
      if 2 < (splitOnCP 46 h).length ∧
          (splitOnCP 46 h).getD ((splitOnCP 46 h).length - 2) [] ∈ commonSLDs
      then joinCP 46 ((splitOnCP 46 h).drop ((splitOnCP 46 h).length - 3))
      else joinCP 46 ((splitOnCP 46 h).drop ((splitOnCP 46 h).length - 2))) ∧
    getRootDomain (str "https://" ++ (h ++ 47 :: p)) = getRootDomain h := by
  have hbad : ∀ c ∈ h, c ≠ 47 ∧ c ≠ 58 ∧ c ≠ 63 ∧ c ≠ 35 ∧ c ≠ 32 := by
    intro c hc
    rcases h2 c hc with e | e | e | e | e <;> omega
  have hlow : ∀ c ∈ h, lowerCP c = c := by
    intro c hc
    unfold lowerCP
    rw [if_neg (by rcases h2 c hc with e | e | e | e | e <;> omega)]
  have hall : h.all hostDomainChar = true := by
    rw [List.all_eq_true]
    intro c hc
    unfold hostDomainChar
    simp only [Bool.or_eq_true, Bool.and_eq_true, decide_eq_true_eq, beq_iff_eq]
    rcases h2 c hc with e | e | e | e | e <;> omega
  have hclean := getRootDomain_clean h1 hbad hlow h3
  constructor
  · rw [hclean]
    unfold collapseParts
    by_cases hlen : 2 < (splitOnCP 46 h).length
    · by_cases hsld : (splitOnCP 46 h).getD ((splitOnCP 46 h).length - 2) [] ∈ commonSLDs
      · rw [if_pos hlen, if_pos hsld, if_pos ⟨hlen, hsld⟩]
      · rw [if_pos hlen, if_neg hsld, if_neg (by tauto)]
    · rw [if_neg hlen, if_neg (by tauto)]
      have hz : (splitOnCP 46 h).length - 2 = 0 := by omega
      rw [hz, List.drop_zero, joinCP_splitOnCP]
  · have hmem : (104 : Nat) ∈ str "https://" ++ (h ++ 47 :: p) :=
      List.mem_append_left _ (by decide : (104 : Nat) ∈ str "https://")
    have hne2 : str "https://" ++ (h ++ 47 :: p) ≠ [] := List.ne_nil_of_mem hmem
    have e8 : str "https://" = str "http" ++ str "s://" := by decide
    have hstart : startsWithStr (str "http") (str "https://" ++ (h ++ 47 :: p)) = true := by
      rw [e8, List.append_assoc]
      exact startsWithStr_append _ _
    have hurl : toURLString (str "https://" ++ (h ++ 47 :: p)) =
        str "https://" ++ (h ++ 47 :: p) := by
      unfold toURLString
      rw [if_pos hstart]
    have hauth : List.takeWhile urlAuthChar (h ++ 47 :: p) = h :=
      takeWhile_append_cons
        (fun c hc => by
          have hb := hbad c hc
          simp [urlAuthChar, hb.1, hb.2.2.1, hb.2.2.2.1])
        (by decide)
    have hhost : hostCandidate (h ++ 47 :: p) = h := by
      unfold hostCandidate
      rw [hauth]
      exact takeWhile_eq_self (fun c hc => by
        have hb := hbad c hc
        simp [urlHostChar, hb.2.1])
    have hlowh : toLowerStr h = h := toLowerStr_eq_self hlow
    have hparse : parseURLHostname (str "https://" ++ (h ++ 47 :: p)) = some h := by
      unfold parseURLHostname
      rw [if_pos (startsWithStr_append (str "https://") (h ++ 47 :: p))]
      rw [List.drop_left' (by decide : (str "https://").length = 8)]
      unfold hostFromRest
      rw [if_neg (by rw [hhost]; exact h1)]
      rw [if_neg (by rw [hhost, hall]; simp)]
      rw [if_neg (by rw [hhost, hlowh, h3]; simp)]
      rw [hhost, hlowh]
    have lhs : getRootDomain (str "https://" ++ (h ++ 47 :: p)) = collapseParts h := by
      simp only [getRootDomain, if_neg hne2]
      rw [hurl]
      simp only [hparse]
    rw [lhs, hclean]

/-- Witness for C7 at the spec's own example: `getRootDomain`
maps `sub.example.com` — bare or as an `https://` URL with a path —
to `example.com`. -/
theorem getRootDomain_collapses_labels_witness :
    getRootDomain (str "sub.example.com") = str "example.com" ∧
    getRootDomain (str "https://" ++ (str "sub.example.com" ++ 47 :: str "path"))
      = str "example.com" := by
  have t := getRootDomain_collapses_labels (str "sub.example.com") (str "path")
    (by decide) (by decide) (by decide) (by decide)
  exact ⟨t.1.trans (by decide), t.2.trans (t.1.trans (by decide))⟩

/-- **C8** counterexample: root-domain normalisation is *not* idempotent,
not even on inputs the `URL` parser accepts.  `FOO BAR.EXAMPLE.COM`
makes the `URL` parse throw (space in the host), and the fallback path
does not lower-case, so the first pass returns `EXAMPLE.COM` while the
second pass — now a valid URL — lower-cases it to `example.com`.  And
`1.2.3.4` is parser-accepted, yet `getRootDomain("1.2.3.4") = "3.4"`
re-parses on the second pass as the IPv4 address `3.0.0.4`, giving
`"0.4"`. -/
theorem getRootDomain_not_idempotent :
    getRootDomain (str "FOO BAR.EXAMPLE.COM") = str "EXAMPLE.COM" ∧
    getRootDomain (getRootDomain (str "FOO BAR.EXAMPLE.COM")) = str "example.com" ∧
    getRootDomain (str "1.2.3.4") = str "3.4" ∧
    getRootDomain (getRootDomain (str "1.2.3.4")) = str "0.4" ∧
    getRootDomain (getRootDomain (str "1.2.3.4")) ≠ getRootDomain (str "1.2.3.4") :=
  ⟨by decide, by decide, by decide, by decide, by decide⟩

/-- **C8** (amended): root-domain normalisation is idempotent on every
input whose parsed hostname is a plain domain — one that does not end in
a numeric label (IPv4 hosts renormalise, so e.g. `1.2.3.4` yields `3.4`
whose second pass gives `0.4`) and that carries no `xn--` punycode
marker.  Outside this set idempotence fails: the malformed-input
fallback skips lower-casing, and IPv4 re-parsing moves the quad's
labels. -/
theorem getRootDomain_idempotent_on_domain_hosts (x hst : Str)
    (hp : parseURLHostname (toURLString x) = some hst)
    (hnum : endsInNumber hst = false)
    (hxn : containsSub (str "xn--") hst = false) :
    getRootDomain (getRootDomain x) = getRootDomain x := by
  have hxne : x ≠ [] := by
    intro e
    subst e
    rw [show toURLString [] = str "https://" from by decide] at hp
    rw [show parseURLHostname (str "https://") = none from by decide] at hp
    exact Option.noConfusion hp
  have hg : getRootDomain x = collapseParts hst := by
    simp only [getRootDomain, if_neg hxne, hp]
  rcases parseURLHostname_inv hp with ⟨v, hv⟩ | ⟨hstne, hstdom, hstlow, _⟩
  · rw [hv, endsInNumber_serializeIPv4] at hnum
    exact absurd hnum (by decide)
  · have hrne : collapseParts hst ≠ [] := collapseParts_ne_nil hstne
    have hrbad : ∀ c ∈ collapseParts hst, c ≠ 47 ∧ c ≠ 58 ∧ c ≠ 63 ∧ c ≠ 35 ∧ c ≠ 32 := by
      intro c hc
      rcases mem_collapseParts hc with hm | he
      · exact hostDomainChar_not_bad (hstdom c hm)
      · subst he
        refine ⟨by omega, by omega, by omega, by omega, by omega⟩
    have hrlow : ∀ c ∈ collapseParts hst, lowerCP c = c := by
      intro c hc
      rcases mem_collapseParts hc with hm | he
      · exact hstlow c hm
      · subst he
        decide
    have hrnum : endsInNumber (collapseParts hst) = false := endsInNumber_collapseParts hnum
    rw [hg, getRootDomain_clean hrne hrbad hrlow hrnum, collapseParts_idem]

/-- Witness for the amended C8 at `sub.example.com`. -/
theorem getRootDomain_idempotent_witness :
    getRootDomain (getRootDomain (str "sub.example.com"))
      = getRootDomain (str "sub.example.com") :=
  getRootDomain_idempotent_on_domain_hosts (str "sub.example.com") (str "sub.example.com")
    (by decide) (by decide) (by decide)

/-- **C3**: for every multiset of finding severities, the derived status
is `Secure` if there are no findings; else `Vulnerable` if any finding is
Critical or High; else `Potentially Vulnerable` if any finding is Medium;
else `Scanned`. -/
theorem deriveStatus_spec (fs : List Finding) :
    deriveStatus fs =
      if fs = [] then str "Secure"
      else if ∃ f ∈ fs, f.severity = str "Critical" ∨ f.severity = str "High" then
        str "Vulnerable"
      else if ∃ f ∈ fs, f.severity = str "Medium" then str "Potentially Vulnerable"
      else str "Scanned" := by
  by_cases h0 : fs = []
  · subst h0
    decide
  · rw [if_neg h0]
    by_cases hCH : ∃ f ∈ fs, f.severity = str "Critical" ∨ f.severity = str "High"
    · rw [if_pos hCH]
      unfold deriveStatus
      rw [if_neg h0]
      obtain ⟨f, hf, hfC | hfH⟩ := hCH
      · rw [if_pos (List.any_eq_true.mpr ⟨f, hf, by simp [hfC]⟩)]
      · cases hC : fs.any (fun g => g.severity == str "Critical")
        · simp only [Bool.false_eq_true, if_false]
          rw [if_pos (List.any_eq_true.mpr ⟨f, hf, by simp [hfH]⟩)]
        · simp
    · rw [if_neg hCH]
      have hC : fs.any (fun g => g.severity == str "Critical") = false := by
        rw [List.any_eq_false]
        intro f hf e
        rw [beq_iff_eq] at e
        exact hCH ⟨f, hf, Or.inl e⟩
      have hH : fs.any (fun g => g.severity == str "High") = false := by
        rw [List.any_eq_false]
        intro f hf e
        rw [beq_iff_eq] at e
        exact hCH ⟨f, hf, Or.inr e⟩
      unfold deriveStatus
      rw [if_neg h0, hC, hH]
      simp only [Bool.false_eq_true, if_false]
      by_cases hM : ∃ f ∈ fs, f.severity = str "Medium"
      · rw [if_pos hM]
        obtain ⟨f, hf, e⟩ := hM
        rw [if_pos (List.any_eq_true.mpr ⟨f, hf, by simp [e]⟩)]
      · rw [if_neg hM]
        have hMf : fs.any (fun g => g.severity == str "Medium") = false := by
          rw [List.any_eq_false]
          intro f hf e
          rw [beq_iff_eq] at e
          exact hM ⟨f, hf, e⟩
        rw [hMf]
        simp

/-- With pairwise-distinct `(path, type)` keys the seen-set never fires,
and `runReconChecks`' loop is the per-entry decision mapped over the
wordlist. -/
theorem reconAux_eq_filterMap (probe : Probe) (fullUrl : Str) (cs : List Check)
    (seen : List Str) (hseen : ∀ c ∈ cs, findingKey c ∉ seen)
    (hnd : (cs.map findingKey).Nodup) :
    reconAux probe fullUrl cs seen = cs.filterMap (checkOutcome probe fullUrl) := by
  induction cs generalizing seen with
  | nil => rfl
  | cons c cs' ih =>
    have hkey : findingKey c ∉ seen := hseen c (List.mem_cons_self c cs')
    have hnds : (∀ x ∈ cs', ¬findingKey x = findingKey c) ∧
        (List.map findingKey cs').Nodup := by simpa using hnd
    simp only [reconAux, List.filterMap_cons]
    by_cases hcond : findingCondition probe fullUrl c = true
    · rw [if_pos hcond, if_neg hkey]
      have ho : checkOutcome probe fullUrl c = some (mkFinding c) := by
        unfold checkOutcome
        rw [if_pos hcond]
      rw [ho]
      congr 1
      apply ih
      · intro c' hc' hmem
        rcases List.mem_cons.mp hmem with e | hin
        · exact hnds.1 c' hc' e
        · exact hseen c' (List.mem_cons_of_mem c hc') hin
      · exact hnds.2
    · rw [if_neg hcond]
      have ho : checkOutcome probe fullUrl c = none := by
        unfold checkOutcome
        rw [if_neg hcond]
      rw [ho]
      exact ih seen (fun c' hc' => hseen c' (List.mem_cons_of_mem c hc')) hnds.2

/-- **C1** counterexample: the claim requires HTTP status exactly 200,
but the code tests `res.ok` (any 2xx).  A probe delivering status 201
with a body containing the positive keyword still produces a Finding. -/
theorem runReconChecks_finding_at_201 :
    runReconChecks (fun _ => some (201, str "DB_PASSWORD=secret")) (str "example.com")
        [envCheck]
      = [{ path := str "/.env", severity := str "Critical", type := str "Sensitive File",
           details := str "Exposed env file" }] ∧ (201 : Nat) ≠ 200 :=
  ⟨by decide, by decide⟩

/-- **C1** (amended): for every wordlist whose entries have pairwise
distinct `(path, type)` keys, an entry contributes a Finding iff its
probe succeeded with a 2xx status (`res.ok`, not exactly 200) and the
body, compared case-insensitively, contains at least one
`positive_match` keyword and none of the `false_positive_indicators`
keywords. -/
theorem runReconChecks_finding_iff (probe : Probe) (domain : Str) (cs : List Check)
    (hnd : (cs.map findingKey).Nodup) (c : Check) (hc : c ∈ cs) :
    mkFinding c ∈ runReconChecks probe domain cs ↔
      findingCondition probe (str "https://" ++ domain) c = true := by
  unfold runReconChecks
  rw [reconAux_eq_filterMap probe _ cs [] (by simp) hnd]
  constructor
  · intro hmem
    obtain ⟨c', hc', he⟩ := List.mem_filterMap.mp hmem
    by_cases hcond : findingCondition probe (str "https://" ++ domain) c' = true
    · unfold checkOutcome at he
      rw [if_pos hcond] at he
      have hfe : mkFinding c' = mkFinding c := Option.some.inj he
      have hpath : c'.path = c.path := congrArg Finding.path hfe
      have htype : findingType c' = findingType c := congrArg Finding.type hfe
      have hkeq : findingKey c' = findingKey c := by
        unfold findingKey
        rw [hpath, htype]
      have : c' = c := List.inj_on_of_nodup_map hnd hc' hc hkeq
      exact this ▸ hcond
    · unfold checkOutcome at he
      rw [if_neg hcond] at he
      exact Option.noConfusion he
  · intro hcond
    refine List.mem_filterMap.mpr ⟨c, hc, ?_⟩
    unfold checkOutcome
    rw [if_pos hcond]

/-- Witness for the amended C1 at the spec's end-to-end scenario: status
200 and a body containing `DB_PASSWORD` yields the `/.env` Finding. -/
theorem runReconChecks_finding_iff_witness :
    mkFinding envCheck ∈
      runReconChecks (fun _ => some (200, str "DB_PASSWORD=secret")) (str "example.com")
        [envCheck] :=
  (runReconChecks_finding_iff (fun _ => some (200, str "DB_PASSWORD=secret"))
    (str "example.com") [envCheck] (by decide) envCheck (by decide)).mpr (by decide)

/-- **C2** counterexample: with no live candidate domain, `performScan`
does *not* return an empty result set — it throws
`No live domains found for …`. -/
theorem performScan_throws_when_no_live :
    performScan (fun _ => none) none (str "example.com") [] []
      = .error (str "No live domains found for example.com. The host may be down or blocking requests.") := by
  decide

/-- **C2** (amended): if no candidate domain is live, the scan of a root
domain raises an error (`No live domains found for …`) to the caller; an
empty `ScanOutput.results` is never what the caller receives. -/
theorem performScan_error_of_no_live (probe : Probe) (subResponse : Option (List Str))
    (domain apiKey : Str) (wordlist : List Check)
    (hdead : ∀ d : Str, probe (str "https://" ++ d) = none) :
    performScan probe subResponse domain apiKey wordlist
      = .error (noLiveMsg (getRootDomain domain)) := by
  have hnone : ∀ a : Str,
      (if liveCheck probe a then some (scanDomain probe wordlist a) else none) = none := by
    intro a
    unfold liveCheck
    rw [hdead a]
    simp
  have hres : ∀ L : List Str,
      List.filterMap
        (fun d => if liveCheck probe d then some (scanDomain probe wordlist d) else none) L
      = [] :=
    fun L => List.filterMap_eq_nil_iff.mpr (fun a _ => hnone a)
  simp only [performScan, hres]
  rfl

/-- Witness for the amended C2: a dead probe makes `performScan` throw. -/
theorem performScan_error_witness :
    performScan (fun _ => none) (some [str "a.example.com"]) (str "sub.example.com")
        (str "k") []
      = .error (noLiveMsg (getRootDomain (str "sub.example.com"))) :=
  performScan_error_of_no_live (fun _ => none) (some [str "a.example.com"])
    (str "sub.example.com") (str "k") [] (fun _ => rfl)

/-- **C9**: `performScan` never returns a `ScanOutput` whose results
sequence is empty: every successfully returned output contains at least
one `ScanResult`, since the empty case throws instead. -/
theorem performScan_ok_results_ne_nil (probe : Probe) (subResponse : Option (List Str))
    (domain apiKey : Str) (wordlist : List Check) (out : ScanOutput)
    (h : performScan probe subResponse domain apiKey wordlist = .ok out) :
    out.results ≠ [] := by
  simp only [performScan] at h
  revert h
  generalize (List.filterMap
    (fun d => if liveCheck probe d then some (scanDomain probe wordlist d) else none)
    _ : List ScanResult) = R
  intro h
  unfold finishScan at h
  split at h
  · exact Except.noConfusion h
  · rename_i hne
    have := Except.ok.inj h
    rw [← this]
    exact hne

/-- Witness for C9: a live root domain yields an ok output, and that
output's results list is nonempty. -/
theorem performScan_ok_witness :
    (ScanOutput.mk [ScanResult.mk (str "example.com") (str "Secure") none []] none).results
      ≠ [] :=
  performScan_ok_results_ne_nil (fun _ => some (404, [])) none (str "example.com") [] []
    (ScanOutput.mk [ScanResult.mk (str "example.com") (str "Secure") none []] none)
    (by decide)

set_option maxRecDepth 40000 in
/-- **C6** counterexample: the provider returns 51 names, every one of
which contains digits.  The claimed digit-exclusion filter does not
exist: the code truncates to the first 50 names in provider order and
scans digit-containing names such as `s01.example.com`. -/
theorem addSubdomains_no_digit_filter :
    ((List.range 51).map
        (fun i => str "s" ++ [48 + i / 10, 48 + i % 10] ++ str ".example.com")).length
      = 51 ∧
    str "s01.example.com" ∈ addSubdomains [str "example.com"]
      ((List.range 51).map
        (fun i => str "s" ++ [48 + i / 10, 48 + i % 10] ++ str ".example.com")) ∧
    (∃ c ∈ str "s01.example.com", 48 ≤ c ∧ c ≤ 57) :=
  ⟨by decide, by decide, by decide⟩

/-- **C6** (amended): when the provider returns more than
`SUBDOMAIN_THRESHOLD` (50) names, the code truncates the list to the
first 50 in provider order — applying no recency preference and no
digit-based exclusion — and then filters by the prefix denylist with
dedup, so no more than 50 provider-derived subdomains join the scan
set. -/
theorem capSubdomains_truncates (init subs : List Str) (h : 50 < subs.length) :
    capSubdomains subs = subs.take 50 ∧
    (addSubdomains init subs).length ≤ init.length + 50 := by
  have hcap : capSubdomains subs = subs.take 50 := by
    unfold capSubdomains SUBDOMAIN_THRESHOLD
    rw [if_pos h]
  refine ⟨hcap, ?_⟩
  have hstep : ∀ (l acc : List Str),
      (l.foldl addSubdomainStep acc).length ≤ acc.length + l.length := by
    intro l
    induction l with
    | nil => intro acc; simp
    | cons x xs ih =>
      intro acc
      rw [List.foldl_cons]
      refine le_trans (ih (addSubdomainStep acc x)) ?_
      have hone : (addSubdomainStep acc x).length ≤ acc.length + 1 := by
        unfold addSubdomainStep
        split
        · simp
        · simp
      simp only [List.length_cons]
      omega
  unfold addSubdomains
  rw [hcap]
  refine le_trans (hstep _ _) ?_
  rw [List.length_take]
  omega

/-- Witness for the amended C6 at a concrete 51-name provider list. -/
theorem capSubdomains_truncates_witness :
    capSubdomains (List.replicate 51 (str "x.example.com"))
        = (List.replicate 51 (str "x.example.com")).take 50 ∧
      (addSubdomains [str "example.com"] (List.replicate 51 (str "x.example.com"))).length
        ≤ ([str "example.com"] : List Str).length + 50 :=
  capSubdomains_truncates [str "example.com"] (List.replicate 51 (str "x.example.com"))
    (by decide)

/-- `addScanResults` only touches `history` and `sessionDomains`. -/
theorem addScanResults_queue_eq (rs : List ScanResult) (s : QueueState) :
    (addScanResults rs s).scanQueue = s.scanQueue ∧
      (addScanResults rs s).currentlyScanningDomain = s.currentlyScanningDomain ∧
      (addScanResults rs s).ignoredDomains = s.ignoredDomains := by
  cases rs with
  | nil => exact ⟨rfl, rfl, rfl⟩
  | cons r rest =>
    simp only [addScanResults]
    by_cases hroot : getRootDomain r.domain = []
    · rw [if_pos hroot]
      exact ⟨rfl, rfl, rfl⟩
    · rw [if_neg hroot]
      exact ⟨rfl, rfl, rfl⟩

/-- **C4** counterexample: `example.com` is enqueued and started, then
skipped (cancelled), then re-enqueued and started again.  When the
*first* run's `performScan` promise now resolves, the guard — which
compares domain names, not cancellation tokens — passes, and the stale
result of the cancelled run is persisted into history instead of being
discarded. -/
theorem scanComplete_persists_stale_result :
    (scanComplete (str "example.com")
        (ScanOutput.mk [ScanResult.mk (str "example.com") (str "Vulnerable") none []] none)
        (processQueueStart (addScanToQueue (str "example.com")
          (skipCurrentScan (processQueueStart
            (addScanToQueue (str "example.com") initialState)))))).history
      = [HistoryItem.mk [ScanResult.mk (str "example.com") (str "Vulnerable") none []]
          (str "example.com")] := by
  decide

/-- **C4** (amended): a late-arriving pipeline result is discarded
whenever its domain is not the currently-scanning domain at completion
time — in particular a completion landing after `skipCurrentScan`, while
the domain is not in flight again, changes nothing.  The guard compares
domain names, not cancellation tokens, so it does not protect a domain
that has been re-queued and is in flight again. -/
theorem scanComplete_discards_when_not_current (s : QueueState) (d : Str)
    (out : ScanOutput) (h : s.currentlyScanningDomain ≠ some d) :
    scanComplete d out s = s ∧
      scanComplete d out (skipCurrentScan s) = skipCurrentScan s := by
  have hskip : (skipCurrentScan s).currentlyScanningDomain = none := by
    unfold skipCurrentScan
    cases hc : s.currentlyScanningDomain
    · exact hc
    · rfl
  constructor
  · unfold scanComplete
    rw [if_pos h]
  · unfold scanComplete
    rw [if_pos (by rw [hskip]; exact fun e => Option.noConfusion e)]

/-- Witness for the amended C4: a concrete late result for
`example.com` leaves a store whose current domain is `other.com` — and
the same store after a skip — unchanged. -/
theorem scanComplete_discards_witness :
    scanComplete (str "example.com")
        (ScanOutput.mk [ScanResult.mk (str "example.com") (str "Secure") none []] none)
        (QueueState.mk [] [] [str "other.com"] true (some (str "other.com")) [])
      = QueueState.mk [] [] [str "other.com"] true (some (str "other.com")) [] ∧
    scanComplete (str "example.com")
        (ScanOutput.mk [ScanResult.mk (str "example.com") (str "Secure") none []] none)
        (skipCurrentScan
          (QueueState.mk [] [] [str "other.com"] true (some (str "other.com")) []))
      = skipCurrentScan
          (QueueState.mk [] [] [str "other.com"] true (some (str "other.com")) []) :=
  scanComplete_discards_when_not_current
    (QueueState.mk [] [] [str "other.com"] true (some (str "other.com")) [])
    (str "example.com")
    (ScanOutput.mk [ScanResult.mk (str "example.com") (str "Secure") none []] none)
    (by decide)

/-- **C5**: `addScanToQueue` first normalises its input to the root
domain and is a no-op whenever that root domain is already queued, in
flight, ignored, or present in history; and over every reachable store
state the queue holds no domain twice while the in-flight domain, when
set, is exactly the queue head — so a domain occupies at most one slot
across the queued and in-flight sets at any time. -/
theorem queue_admission_unique :
    (∀ (s : QueueState) (d : Str),
      (getRootDomain d ∈ s.scanQueue ∨
        s.currentlyScanningDomain = some (getRootDomain d) ∨
        getRootDomain d ∈ s.ignoredDomains ∨
        (s.history.any (fun h => h.rootDomain == getRootDomain d)) = true) →
      addScanToQueue d s = s) ∧
    ∀ s : QueueState, Reachable s →
      s.scanQueue.Nodup ∧
        ∀ d : Str, s.currentlyScanningDomain = some d → s.scanQueue.head? = some d := by
  constructor
  · intro s d hcond
    unfold addScanToQueue
    by_cases hroot : getRootDomain d = []
    · rw [if_pos hroot]
    · rw [if_neg hroot, if_pos hcond]
  · intro s hs
    induction hs with
    | init => exact ⟨List.nodup_nil, fun d e => Option.noConfusion e⟩
    | add d hs ih =>
      rename_i s'
      unfold addScanToQueue
      by_cases hroot : getRootDomain d = []
      · rw [if_pos hroot]
        exact ih
      · rw [if_neg hroot]
        by_cases hcond : getRootDomain d ∈ s'.scanQueue ∨
            s'.currentlyScanningDomain = some (getRootDomain d) ∨
            getRootDomain d ∈ s'.ignoredDomains ∨
            (s'.history.any (fun h => h.rootDomain == getRootDomain d)) = true
        · rw [if_pos hcond]
          exact ih
        · rw [if_neg hcond]
          push_neg at hcond
          refine ⟨?_, ?_⟩
          · show (s'.scanQueue ++ [getRootDomain d]).Nodup
            rw [List.nodup_append]
            exact ⟨ih.1, List.nodup_singleton _,
              fun a ha hb => hcond.1 ((List.mem_singleton.mp hb) ▸ ha)⟩
          · intro dd hdd
            have hdd' : s'.currentlyScanningDomain = some dd := hdd
            have hh := ih.2 dd hdd'
            show (s'.scanQueue ++ [getRootDomain d]).head? = some dd
            rw [List.head?_append, hh]
            rfl
    | start hs ih =>
      rename_i s'
      unfold processQueueStart
      by_cases hq : s'.scanQueue = []
      · rw [if_pos hq]
        exact ⟨ih.1, fun d e => Option.noConfusion e⟩
      · rw [if_neg hq]
        by_cases hp : s'.isProcessingQueue = true
        · rw [if_pos hp]
          exact ih
        · rw [if_neg hp]
          refine ⟨ih.1, ?_⟩
          intro d hd
          have hdd : s'.scanQueue.headD [] = d :=
            Option.some.inj (hd : some (s'.scanQueue.headD []) = some d)
          show s'.scanQueue.head? = some d
          cases hql : s'.scanQueue with
          | nil => exact absurd hql hq
          | cons a t =>
            rw [hql] at hdd
            simp only [List.headD_cons] at hdd
            rw [List.head?_cons, hdd]
    | complete d out hs ih =>
      rename_i s'
      unfold scanComplete
      by_cases hcur : s'.currentlyScanningDomain ≠ some d
      · rw [if_pos hcur]
        exact ih
      · rw [if_neg hcur]
        push_neg at hcur
        have hq1 : (if out.results ≠ [] then addScanResults out.results s'
              else { s' with sessionDomains := insertDedup d s'.sessionDomains }).scanQueue
              = s'.scanQueue ∧
            (if out.results ≠ [] then addScanResults out.results s'
              else { s' with sessionDomains := insertDedup d s'.sessionDomains }).currentlyScanningDomain
              = s'.currentlyScanningDomain := by
          split
          · exact ⟨(addScanResults_queue_eq _ _).1, (addScanResults_queue_eq _ _).2.1⟩
          · exact ⟨rfl, rfl⟩
        rw [if_pos (by rw [hq1.2, hcur])]
        refine ⟨?_, fun dd e => Option.noConfusion e⟩
        show ((if out.results ≠ [] then addScanResults out.results s'
            else { s' with sessionDomains := insertDedup d s'.sessionDomains }).scanQueue.drop
              1).Nodup
        rw [hq1.1]
        exact List.Nodup.sublist (List.drop_sublist 1 s'.scanQueue) ih.1
    | fail d hs ih =>
      rename_i s'
      unfold scanFail
      by_cases hcur : s'.currentlyScanningDomain = some d
      · rw [if_pos hcur]
        exact ⟨List.Nodup.sublist (List.drop_sublist 1 s'.scanQueue) ih.1,
          fun dd e => Option.noConfusion e⟩
      · rw [if_neg hcur]
        exact ih
    | skip hs ih =>
      rename_i s'
      unfold skipCurrentScan
      cases hc : s'.currentlyScanningDomain with
      | none => exact ih
      | some dd =>
        exact ⟨List.Nodup.sublist (List.drop_sublist 1 s'.scanQueue) ih.1,
          fun de e => Option.noConfusion e⟩
    | delete d hs ih => exact ih
    | ignore d hs ih => exact ih
    | unignore d hs ih => exact ih
    | clear hs ih => exact ih

/-- Witness for C5: enqueueing `sub.example.com` while `example.com` is
already queued is a no-op, and the initial store satisfies the
uniqueness invariant. -/
theorem queue_admission_unique_witness :
    addScanToQueue (str "sub.example.com")
        (QueueState.mk [] [] [str "example.com"] false none [])
      = QueueState.mk [] [] [str "example.com"] false none [] ∧
    (initialState.scanQueue.Nodup ∧
      ∀ d : Str, initialState.currentlyScanningDomain = some d →
        initialState.scanQueue.head? = some d) :=
  ⟨queue_admission_unique.1 (QueueState.mk [] [] [str "example.com"] false none [])
      (str "sub.example.com") (by decide),
    queue_admission_unique.2 initialState Reachable.init⟩

/-- Deleting a key from `activeScans` removes it from lookup. -/
theorem lookupScan_filter_eq_none (l : List (Str × Bool)) (k : Str) :
    lookupScan (l.filter (fun p => p.1 ≠ k)) k = none := by
  induction l with
  | nil => rfl
  | cons p ps ih =>
    by_cases hp : p.1 = k
    · rw [List.filter_cons, if_neg (by simp [hp])]
      exact ih
    · rw [List.filter_cons, if_pos (by simp [hp])]
      unfold lookupScan
      rw [if_neg hp]
      exact ih

/-- Inserting a fresh key at the tail of `activeScans` makes lookup find
it. -/
theorem lookupScan_append_fresh {l : List (Str × Bool)} {k : Str} (b : Bool)
    (h : lookupScan l k = none) : lookupScan (l ++ [(k, b)]) k = some b := by
  induction l with
  | nil => simp [lookupScan]
  | cons p ps ih =>
    simp only [lookupScan] at h
    simp only [List.cons_append, lookupScan]
    by_cases hp : p.1 = k
    · rw [if_pos hp] at h
      exact Option.noConfusion h
    · rw [if_neg hp] at h
      rw [if_neg hp]
      exact ih h

/-- **C10**: cancellation does not persist in the background handler.
`CANCEL_SCAN` aborts and then deletes the domain's controller from
`activeScans`, so a subsequent `CHECK_URL` for the same domain is not
rejected as cancelled: it installs a fresh non-aborted controller and
issues the probe with a non-aborted signal.  (The hypothesis that the
stored controller is not already aborted holds in every state the
handler itself produces, since aborted controllers are always deleted or
replaced at once.) -/
theorem cancel_then_check (st : BgState) (d url : Str) (hne : d ≠ [])
    (hd : getRootDomain d ≠ [])
    (hab : lookupScan st.activeScans (getRootDomain d) ≠ some true) :
    lookupScan ((handleMessage st (.cancelScan d)).1).activeScans (getRootDomain d)
        = none ∧
    (handleMessage ((handleMessage st (.cancelScan d)).1) (.checkUrlMsg d url)).2
        = .probeIssued false ∧
    lookupScan ((handleMessage ((handleMessage st (.cancelScan d)).1)
        (.checkUrlMsg d url)).1).activeScans (getRootDomain d) = some false := by
  set st1 := (handleMessage st (BgMsg.cancelScan d)).1 with hst1
  have hcancel : lookupScan st1.activeScans (getRootDomain d) = none := by
    rw [hst1]
    simp only [handleMessage, msgDomain]
    rw [if_neg hne, if_neg hd, if_neg hab]
    by_cases hl : lookupScan st.activeScans (getRootDomain d) = none
    · rw [if_neg (by intro hc; exact hc.2 hl)]
      exact hl
    · rw [if_pos ⟨hd, hl⟩]
      exact lookupScan_filter_eq_none st.activeScans (getRootDomain d)
  refine ⟨hcancel, ?_, ?_⟩
  · simp only [handleMessage, msgDomain]
    rw [if_neg hne, if_neg hd]
    rw [if_neg (by rw [hcancel]; exact fun e => Option.noConfusion e)]
    rw [if_neg hd, if_pos hcancel]
    rw [lookupScan_append_fresh false hcancel]
    rfl
  · simp only [handleMessage, msgDomain]
    rw [if_neg hne, if_neg hd]
    rw [if_neg (by rw [hcancel]; exact fun e => Option.noConfusion e)]
    rw [if_neg hd, if_pos hcancel]
    exact lookupScan_append_fresh false hcancel

/-- Witness for C10: after cancelling `example.com`, a fresh `CHECK_URL`
for it issues the probe with a non-aborted controller. -/
theorem cancel_then_check_witness :
    lookupScan ((handleMessage (BgState.mk [(str "example.com", false)])
        (.cancelScan (str "example.com"))).1).activeScans
        (getRootDomain (str "example.com")) = none ∧
    (handleMessage ((handleMessage (BgState.mk [(str "example.com", false)])
        (.cancelScan (str "example.com"))).1)
        (.checkUrlMsg (str "example.com") (str "https://example.com/x"))).2
        = .probeIssued false ∧
    lookupScan ((handleMessage ((handleMessage (BgState.mk [(str "example.com", false)])
        (.cancelScan (str "example.com"))).1)
        (.checkUrlMsg (str "example.com") (str "https://example.com/x"))).1).activeScans
        (getRootDomain (str "example.com")) = some false :=
  cancel_then_check (BgState.mk [(str "example.com", false)]) (str "example.com")
    (str "https://example.com/x") (by decide) (by decide) (by decide)

end ReconExt
